import Mathlib

/-!
Verification of the protocol-wizard server core against its specification.

Text is modelled as `List Char` (Python `str` as a sequence of code points).
Python's `str.replace`, `str.strip`, `str.splitlines` and the functions of
`server/utils.py`, `server/llm.py` and `server/main.py` are embedded as
executable Lean definitions; wall-clock timing, network transport and the
`json`/`hashlib` standard-library internals that the code treats as opaque
are modelled explicitly where needed (SHA-256 is implemented in full; JSON
parsing is an oracle parameter).
-/

/-! ## Python text primitives -/

/-- Python `str.replace(old, new)` for a non-empty `old`: scan left to right,
replacing each non-overlapping occurrence of `old` by `new`.  (The source
only ever calls `replace` with non-empty `old`; for empty `old` this model
returns the string unchanged.) -/
def pyReplace (old new : List Char) (s : List Char) : List Char :=
  if h : old.isPrefixOf s ∧ old ≠ [] then
    new ++ pyReplace old new (s.drop old.length)
  else
    match s with
    | [] => []
    | c :: cs => c :: pyReplace old new cs
termination_by s.length
decreasing_by
  · have h1 : old <+: s := List.isPrefixOf_iff_prefix.mp h.1
    have h3 : 0 < old.length := List.length_pos.mpr h.2
    have h4 : old.length ≤ s.length := h1.length_le
    simp only [List.length_drop]
    omega
  · simp

/-- Python whitespace test used by `str.strip()` (ASCII whitespace:
space, tab, newline, carriage return, vertical tab, form feed). -/
def isPySpace (c : Char) : Bool :=
  decide (c.toNat = 32 ∨ c.toNat = 9 ∨ c.toNat = 10 ∨ c.toNat = 13 ∨
    c.toNat = 11 ∨ c.toNat = 12)

/-- Python `str.strip()`: drop whitespace from both ends. -/
def pyStrip (s : List Char) : List Char :=
  ((s.dropWhile isPySpace).reverse.dropWhile isPySpace).reverse

/-- The plain code-fence marker. -/
def fencePlain : List Char := ( "```".data)

/-- The json-tagged code-fence marker. -/
def fenceJson : List Char := ( "```json".data)

/-- The jsonl-tagged code-fence marker. -/
def fenceJsonl : List Char := ( "```jsonl".data)

/-- `server/utils.py` `strip_code_fences`: replace `"```json"`, then
`"```jsonl"`, then `"```"` each by the empty string, then strip surrounding
whitespace. -/
def strip_code_fences (text : List Char) : List Char :=
  pyStrip (pyReplace fencePlain [] (pyReplace fenceJsonl [] (pyReplace fenceJson [] text)))

/-- The backtick character. -/
def backtick : Char := Char.ofNat 96

/-- Number of leading backticks of a string. -/
def leadTicks : List Char → Nat
  | [] => 0
  | c :: cs => if c = backtick then leadTicks cs + 1 else 0

/-! ## JSON data model, `deep_sort`, canonical serialization -/

/-- JSON-compatible nested values as handled by `server/utils.py`:
`None`, booleans, integers, strings, lists and dicts (a dict is a finite
sequence of key/value pairs; Python dicts additionally have pairwise
distinct keys, which theorems assume where it matters). -/
inductive JValue where
  | null : JValue
  | jbool : Bool → JValue
  | jnum : Int → JValue
  | jstr : String → JValue
  | jarr : List JValue → JValue
  | jobj : List (String × JValue) → JValue

/-- Lexicographic comparison of key strings by code point, the order Python
`sorted` uses on `str`. -/
def keyLeb (a b : List Char) : Bool :=
  match a, b with
  | [], _ => true
  | _ :: _, [] => false
  | x :: xs, y :: ys => if x = y then keyLeb xs ys else decide (x < y)

/-- Order on dict entries: compare keys lexicographically. -/
def pairLe (p q : String × JValue) : Prop :=
  keyLeb p.1.data q.1.data = true

instance : DecidableRel pairLe := fun p q => by
  unfold pairLe
  infer_instance

mutual
/-- `server/utils.py` `deep_sort`: recursively sort dict keys ascending;
keep list order; leave scalars unchanged. -/
def deep_sort : JValue → JValue
  | .null => .null
  | .jbool b => .jbool b
  | .jnum n => .jnum n
  | .jstr s => .jstr s
  | .jarr xs => .jarr (deepSortList xs)
  | .jobj fs => .jobj (List.insertionSort pairLe (deepSortPairs fs))
termination_by v => sizeOf v

/-- `deep_sort` mapped over the elements of a list. -/
def deepSortList : List JValue → List JValue
  | [] => []
  | x :: xs => deep_sort x :: deepSortList xs
termination_by l => sizeOf l

/-- `deep_sort` mapped over the values of dict entries. -/
def deepSortPairs : List (String × JValue) → List (String × JValue)
  | [] => []
  | (k, v) :: fs => (k, deep_sort v) :: deepSortPairs fs
termination_by l => sizeOf l
end

/-- Lower-case hexadecimal digit for a nibble. -/
def hexChar (n : Nat) : Char :=
  if n < 10 then Char.ofNat (48 + n) else Char.ofNat (87 + n)

/-- JSON string escaping as Python `json.dumps` with `ensure_ascii=False`
performs it: escape the quote, the backslash, and control characters
(short escapes for backspace, tab, newline, form feed, carriage return;
`\u00XX` for the rest); all other characters pass through unchanged. -/
def escapeChar (c : Char) : List Char :=
  if c = Char.ofNat 34 then [Char.ofNat 92, Char.ofNat 34]
  else if c = Char.ofNat 92 then [Char.ofNat 92, Char.ofNat 92]
  else if c = Char.ofNat 8 then [Char.ofNat 92, Char.ofNat 98]
  else if c = Char.ofNat 9 then [Char.ofNat 92, Char.ofNat 116]
  else if c = Char.ofNat 10 then [Char.ofNat 92, Char.ofNat 110]
  else if c = Char.ofNat 12 then [Char.ofNat 92, Char.ofNat 102]
  else if c = Char.ofNat 13 then [Char.ofNat 92, Char.ofNat 114]
  else if c.toNat < 32 then
    [Char.ofNat 92, Char.ofNat 117, Char.ofNat 48, Char.ofNat 48,
      hexChar (c.toNat / 16), hexChar (c.toNat % 16)]
  else [c]

/-- Decimal digit character. -/
def digitChar (n : Nat) : Char := Char.ofNat (48 + n)

/-- Decimal digits of a natural number, most significant first. -/
def natDigits (n : Nat) : List Char :=
  if h : n < 10 then [digitChar n]
  else natDigits (n / 10) ++ [digitChar (n % 10)]
termination_by n
decreasing_by
  omega

/-- Decimal rendering of an integer, as Python `str(int)` and `json.dumps`
produce it. -/
def renderInt (n : Int) : List Char :=
  if n < 0 then Char.ofNat 45 :: natDigits n.natAbs else natDigits n.toNat

/-- Render a JSON string literal with surrounding quotes. -/
def renderString (s : String) : List Char :=
  Char.ofNat 34 :: (s.data.map escapeChar).flatten ++ [Char.ofNat 34]

mutual
/-- Compact JSON serialization as Python
`json.dumps(·, ensure_ascii=False, separators=(",", ":"))`. -/
def render : JValue → List Char
  | .null => ( "null".data)
  | .jbool true => ( "true".data)
  | .jbool false => ( "false".data)
  | .jnum n => renderInt n
  | .jstr s => renderString s
  | .jarr xs => Char.ofNat 91 :: renderElems xs ++ [Char.ofNat 93]
  | .jobj fs => Char.ofNat 123 :: renderFields fs ++ [Char.ofNat 125]
termination_by v => sizeOf v

/-- Comma-separated rendering of array elements. -/
def renderElems : List JValue → List Char
  | [] => []
  | [x] => render x
  | x :: y :: xs => render x ++ Char.ofNat 44 :: renderElems (y :: xs)
termination_by l => sizeOf l

/-- Comma-separated rendering of `key:value` dict entries. -/
def renderFields : List (String × JValue) → List Char
  | [] => []
  | [(k, v)] => renderString k ++ Char.ofNat 58 :: render v
  | (k, v) :: q :: fs =>
      renderString k ++ Char.ofNat 58 :: render v ++ Char.ofNat 44 :: renderFields (q :: fs)
termination_by l => sizeOf l
end

/-- `server/utils.py` `canonical_json_string`: compact serialization of the
deep-sorted structure. -/
def canonical_json_string (obj : JValue) : List Char :=
  render (deep_sort obj)

/-! ## SHA-256 (`hashlib.sha256(...).hexdigest()`) -/

/-- Truncate to 32 bits. -/
def mod32 (x : Nat) : Nat := x % 4294967296

/-- Rotate a 32-bit word right by `n`. -/
def rotr (n x : Nat) : Nat := mod32 ((x >>> n) ||| (x <<< (32 - n)))

/-- SHA-256 small sigma 0. -/
def smallS0 (x : Nat) : Nat := (rotr 7 x) ^^^ (rotr 18 x) ^^^ (x >>> 3)

/-- SHA-256 small sigma 1. -/
def smallS1 (x : Nat) : Nat := (rotr 17 x) ^^^ (rotr 19 x) ^^^ (x >>> 10)

/-- SHA-256 big sigma 0. -/
def bigS0 (x : Nat) : Nat := (rotr 2 x) ^^^ (rotr 13 x) ^^^ (rotr 22 x)

/-- SHA-256 big sigma 1. -/
def bigS1 (x : Nat) : Nat := (rotr 6 x) ^^^ (rotr 11 x) ^^^ (rotr 25 x)

/-- SHA-256 choice function. -/
def chF (x y z : Nat) : Nat := (x &&& y) ^^^ ((x ^^^ 4294967295) &&& z)

/-- SHA-256 majority function. -/
def majF (x y z : Nat) : Nat := (x &&& y) ^^^ (x &&& z) ^^^ (y &&& z)

/-- The 64 SHA-256 round constants. -/
def sha256K : List Nat :=
  [1116352408, 1899447441, 3049323471, 3921009573, 961987163,
   1508970993, 2453635748, 2870763221, 3624381080, 310598401,
   607225278, 1426881987, 1925078388, 2162078206, 2614888103,
   3248222580, 3835390401, 4022224774, 264347078, 604807628,
   770255983, 1249150122, 1555081692, 1996064986, 2554220882,
   2821834349, 2952996808, 3210313671, 3336571891, 3584528711,
   113926993, 338241895, 666307205, 773529912, 1294757372,
   1396182291, 1695183700, 1986661051, 2177026350, 2456956037,
   2730485921, 2820302411, 3259730800, 3345764771, 3516065817,
   3600352804, 4094571909, 275423344, 430227734, 506948616,
   659060556, 883997877, 958139571, 1322822218, 1537002063,
   1747873779, 1955562222, 2024104815, 2227730452, 2361852424,
   2428436474, 2756734187, 3204031479, 3329325298]

/-- Running hash state: eight 32-bit words. -/
structure Hash8 where
  w0 : Nat
  w1 : Nat
  w2 : Nat
  w3 : Nat
  w4 : Nat
  w5 : Nat
  w6 : Nat
  w7 : Nat

/-- SHA-256 initial hash value. -/
def sha256H0 : Hash8 :=
  ⟨1779033703, 3144134277, 1013904242, 2773480762,
   1359893119, 2600822924, 528734635, 1541459225⟩

/-- Big-endian bytes (8) of a message bit length. -/
def lenBytes (n : Nat) : List Nat :=
  [n / 72057594037927936 % 256, n / 281474976710656 % 256,
   n / 1099511627776 % 256, n / 4294967296 % 256,
   n / 16777216 % 256, n / 65536 % 256, n / 256 % 256, n % 256]

/-- SHA-256 padding: append `0x80`, zero bytes up to 56 mod 64, then the
64-bit big-endian bit length. -/
def padMsg (msg : List Nat) : List Nat :=
  msg ++ 128 :: List.replicate ((119 - msg.length % 64) % 64) 0 ++ lenBytes (msg.length * 8)

/-- Split a byte string into 64-byte blocks. -/
def chunks64 : List Nat → List (List Nat)
  | [] => []
  | x :: xs => ((x :: xs).take 64) :: chunks64 ((x :: xs).drop 64)
termination_by l => l.length
decreasing_by
  simp [List.length_drop]
  omega

/-- Big-endian 32-bit words from bytes. -/
def bytesToWords : List Nat → List Nat
  | a :: b :: c :: d :: rest => (a * 16777216 + b * 65536 + c * 256 + d) :: bytesToWords rest
  | _ => []

/-- Extend the 16-word message schedule to 64 words. -/
def extendW (w : List Nat) : List Nat :=
  if h : w.length < 64 then
    extendW (w ++ [mod32 (smallS1 (w.getD (w.length - 2) 0) + w.getD (w.length - 7) 0 +
      smallS0 (w.getD (w.length - 15) 0) + w.getD (w.length - 16) 0)])
  else w
termination_by 64 - w.length
decreasing_by
  simp only [List.length_append, List.length_cons, List.length_nil]
  omega

/-- One SHA-256 round. -/
def roundStep (st : Hash8) (kw : Nat × Nat) : Hash8 :=
  let t1 := st.w7 + bigS1 st.w4 + chF st.w4 st.w5 st.w6 + kw.1 + kw.2
  let t2 := bigS0 st.w0 + majF st.w0 st.w1 st.w2
  ⟨mod32 (t1 + t2), st.w0, st.w1, st.w2, mod32 (st.w3 + t1), st.w4, st.w5, st.w6⟩

/-- Compress one 64-byte block into the running state. -/
def compressBlock (st : Hash8) (block : List Nat) : Hash8 :=
  let w := extendW (bytesToWords block)
  let r := (sha256K.zip w).foldl (fun s kw => roundStep s (kw.1, kw.2)) st
  ⟨mod32 (st.w0 + r.w0), mod32 (st.w1 + r.w1), mod32 (st.w2 + r.w2), mod32 (st.w3 + r.w3),
   mod32 (st.w4 + r.w4), mod32 (st.w5 + r.w5), mod32 (st.w6 + r.w6), mod32 (st.w7 + r.w7)⟩

/-- SHA-256 over a byte string. -/
def sha256Bytes (msg : List Nat) : Hash8 :=
  (chunks64 (padMsg msg)).foldl compressBlock sha256H0

/-- UTF-8 encoding of one code point. -/
def utf8Char (c : Char) : List Nat :=
  let n := c.toNat
  if n < 128 then [n]
  else if n < 2048 then [192 + n / 64, 128 + n % 64]
  else if n < 65536 then [224 + n / 4096, 128 + n / 64 % 64, 128 + n % 64]
  else [240 + n / 262144, 128 + n / 4096 % 64, 128 + n / 64 % 64, 128 + n % 64]

/-- UTF-8 encoding of a text. -/
def utf8Encode (s : List Char) : List Nat := (s.map utf8Char).flatten

/-- Eight lower-case hex digits of a 32-bit word, most significant first. -/
def wordHex (w : Nat) : List Char :=
  [hexChar (w / 268435456 % 16), hexChar (w / 16777216 % 16),
   hexChar (w / 1048576 % 16), hexChar (w / 65536 % 16),
   hexChar (w / 4096 % 16), hexChar (w / 256 % 16),
   hexChar (w / 16 % 16), hexChar (w % 16)]

/-- `server/utils.py` `sha256_text`: hex digest of the SHA-256 hash of the
UTF-8 bytes of the text. -/
def sha256_text (s : List Char) : List Char :=
  let h := sha256Bytes (utf8Encode s)
  wordHex h.w0 ++ wordHex h.w1 ++ wordHex h.w2 ++ wordHex h.w3 ++
    wordHex h.w4 ++ wordHex h.w5 ++ wordHex h.w6 ++ wordHex h.w7

/-- The sixteen lower-case hexadecimal digits. -/
def hexAlphabet : List Char := ( "0123456789abcdef".data)

/-- Structural equality up to dict key ordering at every nesting depth:
scalars must be equal, lists must be pointwise related in the same order,
and a dict on the left (with pairwise distinct keys, as Python dicts have)
must be related entry-by-entry — equal key, related value — to some
reordering of the dict on the right. -/
inductive JEq : JValue → JValue → Prop where
  | null : JEq .null .null
  | jbool (b : Bool) : JEq (.jbool b) (.jbool b)
  | jnum (n : Int) : JEq (.jnum n) (.jnum n)
  | jstr (s : String) : JEq (.jstr s) (.jstr s)
  | jarr (xs ys : List JValue) (hlen : xs.length = ys.length)
      (helem : ∀ (i : Nat) (h1 : i < xs.length) (h2 : i < ys.length),
        JEq (xs.get ⟨i, h1⟩) (ys.get ⟨i, h2⟩)) :
      JEq (.jarr xs) (.jarr ys)
  | jobj (xs zs ys : List (String × JValue))
      (hnd : (xs.map Prod.fst).Nodup)
      (hlen : xs.length = zs.length)
      (hkey : ∀ (i : Nat) (h1 : i < xs.length) (h2 : i < zs.length),
        (xs.get ⟨i, h1⟩).1 = (zs.get ⟨i, h2⟩).1)
      (hval : ∀ (i : Nat) (h1 : i < xs.length) (h2 : i < zs.length),
        JEq (xs.get ⟨i, h1⟩).2 (zs.get ⟨i, h2⟩).2)
      (hperm : zs.Perm ys) :
      JEq (.jobj xs) (.jobj ys)

/-- The end-to-end scenario structure from the spec:
`{"sources":["arxiv","pubmed"],"screening":{"years":[2020,2025],
"languages":["en","fr"]},"keywords":{"include":["AI","ML"],
"exclude":["robotics"]}}`. -/
def demoProtocol : JValue :=
  .jobj [
    ( "sources", .jarr [.jstr "arxiv", .jstr "pubmed"]),
    ( "screening", .jobj [
      ( "years", .jarr [.jnum 2020, .jnum 2025]),
      ( "languages", .jarr [.jstr "en", .jstr "fr"])]),
    ( "keywords", .jobj [
      ( "include", .jarr [.jstr "AI", .jstr "ML"]),
      ( "exclude", .jarr [.jstr "robotics"])])]

/-! ## Response normalizer (`server/utils.py` `normalize_jsonl`)

JSON parsing (`json.loads`) is standard-library code the source treats as a
black box; it is modelled as an oracle `parse : List Char → Option JValue`
(`none` models a raised `JSONDecodeError`). -/

/-- Python `str.splitlines()` restricted to the line breaks that occur in
LLM text output: `\n`, `\r\n` and `\r`; no trailing empty line. -/
def pySplitlines : List Char → List Char → List (List Char)
  | [], acc => if acc.isEmpty then [] else [acc.reverse]
  | c :: cs, acc =>
    if c = Char.ofNat 10 then acc.reverse :: pySplitlines cs []
    else if c = Char.ofNat 13 then
      match cs with
      | d :: ds =>
        if d = Char.ofNat 10 then acc.reverse :: pySplitlines ds []
        else acc.reverse :: pySplitlines (d :: ds) []
      | [] => acc.reverse :: pySplitlines [] []
    else pySplitlines cs (c :: acc)
termination_by s _ => s.length

/-- Mapping test: `isinstance(x, dict)`. -/
def isJObjB : JValue → Bool
  | .jobj _ => true
  | _ => false

/-- Keep a parse result only when it is a mapping. -/
def asJObj : Option JValue → Option JValue
  | some (.jobj fs) => some (.jobj fs)
  | _ => none

/-- The line-oriented loop of `normalize_jsonl`: strip each line, skip
blanks, parse, keep mappings, skip everything else. -/
def jsonlLines (parse : List Char → Option JValue) : List (List Char) → List JValue
  | [] => []
  | l :: ls =>
    let line := pyStrip l
    if line = [] then jsonlLines parse ls
    else
      match parse line with
      | some (.jobj fs) => .jobj fs :: jsonlLines parse ls
      | _ => jsonlLines parse ls

/-- `server/utils.py` `normalize_jsonl`: strip code fences; if the whole
text parses as a JSON array keep its mapping elements; otherwise (parse
failure or non-array result) fall back to line-oriented JSON-Lines
parsing. -/
def normalize_jsonl (parse : List Char → Option JValue) (raw : List Char) : List JValue :=
  match parse (strip_code_fences raw) with
  | some (.jarr xs) => xs.filter isJObjB
  | _ => jsonlLines parse (pySplitlines (strip_code_fences raw) [])

/-! ## LLM call layer (`server/llm.py`) -/

/-- The provider enumeration. -/
inductive LLMProvider where
  | openai : LLMProvider
  | gemini : LLMProvider
  | google : LLMProvider

/-- The string value of each enum member. -/
def LLMProvider.value : LLMProvider → List Char
  | .openai => ( "openai".data)
  | .gemini => ( "gemini".data)
  | .google => ( "google".data)

/-- Enum lookup `LLMProvider(s)`: `some` member with that value, else
`none` (modelling the `ValueError`). -/
def providerFromValue (s : List Char) : Option LLMProvider :=
  if s = ( "openai".data) then some .openai
  else if s = ( "gemini".data) then some .gemini
  else if s = ( "google".data) then some .google
  else none

/-- Python `model.split(":", 1)` when a colon occurs: the part before the
first colon and the part after it; `none` when no colon occurs. -/
def splitOnColon : List Char → Option (List Char × List Char)
  | [] => none
  | c :: cs =>
    if c = Char.ofNat 58 then some ([], cs)
    else
      match splitOnColon cs with
      | some (pre, rest) => some (c :: pre, rest)
      | none => none

/-- `server/llm.py` `parse_model_string`: split on the first colon, match
the lowercased prefix against the provider enum; on no colon or unknown
prefix default to OpenAI with the whole string as model name. -/
def parse_model_string (model : List Char) : LLMProvider × List Char :=
  match splitOnColon model with
  | some (pre, rest) =>
    match providerFromValue (pre.map Char.toLower) with
    | some p => (p, rest)
    | none => (.openai, model)
  | none => (.openai, model)

/-- `server/llm.py` `LLMResponse` (the CallResult). -/
structure LLMResponse where
  content : Option (List Char)
  success : Bool
  provider : List Char
  model : List Char
  latency_ms : Nat
  tokens_used : Option Nat
  error : Option (List Char)

/-- `server/llm.py` `LLMConfig`.  Delays are exact rationals (Python float
arithmetic on them — doubling and `min` — is exact). -/
structure LLMConfig where
  max_retries : Nat
  timeout_seconds : Nat
  base_delay : ℚ
  max_delay : ℚ
  temperature : ℚ

/-- Environment one `_call_openai` attempt runs in: the credential slot and
the backend interaction — either a raised exception (message) or a
completion whose message content is optional in the OpenAI SDK, plus an
optional token count. -/
structure OpenAIEnv where
  api_key : Option (List Char)
  outcome : Except (List Char) (Option (List Char) × Option Nat)

/-- `server/llm.py` `_call_openai` (one attempt; latency is patched by the
caller and is not modelled). -/
def _call_openai (env : OpenAIEnv) (model : List Char) : LLMResponse :=
  match env.api_key with
  | none =>
    ⟨none, false, ( "openai".data), model, 0, none, some ( "OPENAI_API_KEY not set".data)⟩
  | some _ =>
    match env.outcome with
    | .error e =>
      ⟨none, false, ( "openai".data), model, 0, none, some (( "OpenAI API error: ".data) ++ e)⟩
    | .ok (content, tokens) =>
      ⟨content, true, ( "openai".data), model, 0, tokens, none⟩

/-- Environment one `_call_gemini` attempt runs in: the credential slot and
the backend interaction — either a raised exception (message) or the text
extracted by `_extract_gemini_text` (optional) plus an optional token
count. -/
structure GeminiEnv where
  api_key : Option (List Char)
  outcome : Except (List Char) (Option (List Char) × Option Nat)

/-- `server/llm.py` `_call_gemini` (one attempt): missing or empty
extracted text (`if not content`) is a failure. -/
def _call_gemini (env : GeminiEnv) (model : List Char) : LLMResponse :=
  match env.api_key with
  | none =>
    ⟨none, false, ( "gemini".data), model, 0, none, some ( "GOOGLE_API_KEY not set".data)⟩
  | some _ =>
    match env.outcome with
    | .error e =>
      ⟨none, false, ( "gemini".data), model, 0, none, some (( "Gemini API error: ".data) ++ e)⟩
    | .ok (content, tokens) =>
      match content with
      | none =>
        ⟨none, false, ( "gemini".data), model, 0, none, some ( "No content in Gemini response".data)⟩
      | some s =>
        if s = [] then
          ⟨none, false, ( "gemini".data), model, 0, none, some ( "No content in Gemini response".data)⟩
        else
          ⟨some s, true, ( "gemini".data), model, 0, tokens, none⟩

/-- What one adapter invocation does, as observed by the retry loop:
either it raises (the loop catches the message) or it returns a response.
A function `Nat → AdapterOutcome` gives the outcome of each attempt
index. -/
inductive AdapterOutcome where
  | raises : List Char → AdapterOutcome
  | returns : LLMResponse → AdapterOutcome

/-- Whether an outcome is a returned success. -/
def outcomeSuccessB : AdapterOutcome → Bool
  | .raises _ => false
  | .returns r => r.success

/-- The error the retry loop records after a failed attempt: the exception
message, or the returned response's error field. -/
def outcomeErr : AdapterOutcome → Option (List Char)
  | .raises m => some m
  | .returns r => r.error

/-- Observable retry-loop behaviour: number of adapter invocations and the
sequence of backoff sleeps, in order. -/
structure CallTrace where
  invocations : Nat
  sleeps : List ℚ

/-- The backoff delay before retrying after attempt `attempt`:
`min(base_delay * 2^attempt, max_delay)`. -/
def backoffDelay (cfg : LLMConfig) (attempt : Nat) : ℚ :=
  min (cfg.base_delay * 2 ^ attempt) cfg.max_delay

/-- Account for one failed attempt on top of the rest of the loop's run:
one more invocation, plus the backoff sleep when further attempts remain
(`attempt < max_retries - 1` in the source is `remaining > 0` here). -/
def wrapStep (rc : LLMResponse × CallTrace) (remaining : Nat) (cfg : LLMConfig)
    (attempt : Nat) : LLMResponse × CallTrace :=
  (rc.1, ⟨rc.2.invocations + 1,
    (if remaining > 0 then [backoffDelay cfg attempt] else []) ++ rc.2.sleeps⟩)

/-- The retry loop of `call_llm_async`, with `remaining` attempts left,
`attempt` the next attempt index and `lastError` the error recorded so
far.  Returns the response together with the observable trace.  Wall-clock
latency is not modelled (the latency field is 0). -/
def callLoop (outcomes : Nat → AdapterOutcome) (cfg : LLMConfig)
    (providerStr modelName : List Char) :
    Nat → Nat → Option (List Char) → LLMResponse × CallTrace
  | 0, _, lastError =>
    (⟨none, false, providerStr, modelName, 0, none, lastError⟩, ⟨0, []⟩)
  | remaining + 1, attempt, _lastError =>
    match outcomes attempt with
    | .raises msg =>
      wrapStep (callLoop outcomes cfg providerStr modelName remaining (attempt + 1) (some msg))
        remaining cfg attempt
    | .returns resp =>
      if resp.success then (resp, ⟨1, []⟩)
      else
        wrapStep
          (callLoop outcomes cfg providerStr modelName remaining (attempt + 1) resp.error)
          remaining cfg attempt

/-- The dispatch condition of `call_llm_async`'s `if`/`elif` chain; the
`else` branch is taken exactly when this is false. -/
def supportedProvider : LLMProvider → Bool
  | .openai => true
  | .gemini => true
  | .google => true

/-- The failure response of the `else` (unsupported provider) branch. -/
def unsupportedResponse (vendor : LLMProvider) (name : List Char) : LLMResponse :=
  ⟨none, false, vendor.value, name, 0, none,
    some (( "Unsupported provider: ".data) ++ vendor.value)⟩

/-- `server/llm.py` `call_llm_async`: resolve provider and model, then run
the retry loop with the matching adapter (whose per-attempt outcomes are
the `outcomes` argument), or return the unsupported-provider failure. -/
def call_llm_async (outcomes : Nat → AdapterOutcome) (model : List Char)
    (cfg : LLMConfig) : LLMResponse × CallTrace :=
  if supportedProvider (parse_model_string model).1 then
    callLoop outcomes cfg (parse_model_string model).1.value (parse_model_string model).2
      cfg.max_retries 0 none
  else
    (unsupportedResponse (parse_model_string model).1 (parse_model_string model).2, ⟨0, []⟩)

/-- The last error recorded when `rem` further attempts all fail, starting
at attempt `att` with `err` already recorded. -/
def lastErrOf (outcomes : Nat → AdapterOutcome) (att rem : Nat)
    (err : Option (List Char)) : Option (List Char) :=
  if rem = 0 then err else outcomeErr (outcomes (att + rem - 1))

/-- The response-shape invariant of C1 for one adapter outcome: returned
successes carry content, returned failures carry no content and an
error; raised exceptions are unconstrained. -/
def respInvariant : AdapterOutcome → Prop
  | .raises _ => True
  | .returns r =>
    (r.success = true → r.content ≠ none) ∧
    (r.success = false → r.content = none ∧ r.error ≠ none)

/-! ## Pipeline stage models (`server/main.py`) -/

/-- `server/main.py` `api_queries`, given the orchestrator's content
(`raw`, `none` when `call_llm` yielded no content) and the JSON oracle:
returns the queries and the `from_fallback` flag. -/
def api_queries (parse : List Char → Option JValue) (raw : Option (List Char)) :
    List JValue × Bool :=
  match raw with
  | none => ([], true)
  | some r =>
    let objs := normalize_jsonl parse r
    (objs, objs.isEmpty)

/-- The normalized record collection behind `api_queries`. -/
def queriesRecords (parse : List Char → Option JValue) (raw : Option (List Char)) :
    List JValue :=
  match raw with
  | none => []
  | some r => normalize_jsonl parse r

/-! ## Freeze stage (`server/models.py`, `server/main.py` `api_freeze`) -/

/-- `server/models.py` `Screening`. -/
structure Screening where
  inclusion_criteria : List String
  exclusion_criteria : List String
  years : Int × Int
  languages : List String
  doc_types : List String

/-- `server/models.py` `Picos`. -/
structure Picos where
  population : Option (List String)
  intervention : Option (List String)
  comparison : Option (List String)
  outcomes : Option (List String)
  context : Option (List String)

/-- `server/models.py` `Keywords`. -/
structure Keywords where
  incl : List String
  excl : List String
  synonyms : Option (List (String × List String))

/-- `server/models.py` `Protocol`. -/
structure Protocol where
  research_questions : List String
  picos : Option Picos
  keywords : Keywords
  screening : Screening
  sources : List String
  rationales : Option (List (String × String))

/-- `server/models.py` `BorderlineExample` (the `suggested` literal is one
of INCLUDE/EXCLUDE/MAYBE, modelled as a string). -/
structure BorderlineExample where
  text : String
  suggested : String
  why : String

/-- `server/models.py` `Refinements`. -/
structure Refinements where
  inclusion_criteria_refined : List String
  exclusion_criteria_refined : List String
  borderline_examples : List BorderlineExample
  risks_and_ambiguities : List String

/-- `server/models.py` `Manifest`. -/
structure Manifest where
  frozen_at_utc : String
  protocol_sha256 : List Char
  source_files : List String
  notes : Option String

/-- `server/models.py` `FreezeResponse`. -/
structure FreezeResponse where
  protocol : Protocol
  manifest : Manifest

/-- `model_dump` of a list of strings. -/
def strListToJ (l : List String) : JValue := .jarr (l.map .jstr)

/-- `model_dump` of an optional list of strings (`None` ↦ JSON null). -/
def optStrListToJ : Option (List String) → JValue
  | none => .null
  | some l => strListToJ l

/-- `model_dump` of `Screening`. -/
def screeningToJ (s : Screening) : JValue :=
  .jobj [
    ( "inclusion_criteria", strListToJ s.inclusion_criteria),
    ( "exclusion_criteria", strListToJ s.exclusion_criteria),
    ( "years", .jarr [.jnum s.years.1, .jnum s.years.2]),
    ( "languages", strListToJ s.languages),
    ( "doc_types", strListToJ s.doc_types)]

/-- `model_dump` of `Picos`. -/
def picosToJ (p : Picos) : JValue :=
  .jobj [
    ( "population", optStrListToJ p.population),
    ( "intervention", optStrListToJ p.intervention),
    ( "comparison", optStrListToJ p.comparison),
    ( "outcomes", optStrListToJ p.outcomes),
    ( "context", optStrListToJ p.context)]

/-- `model_dump` of `Keywords`. -/
def keywordsToJ (k : Keywords) : JValue :=
  .jobj [
    ( "include", strListToJ k.incl),
    ( "exclude", strListToJ k.excl),
    ( "synonyms", match k.synonyms with
      | none => .null
      | some m => .jobj (m.map (fun p => (p.1, strListToJ p.2))))]

/-- `model_dump` of `Protocol`. -/
def protocolToJ (p : Protocol) : JValue :=
  .jobj [
    ( "research_questions", strListToJ p.research_questions),
    ( "picos", match p.picos with
      | none => .null
      | some pc => picosToJ pc),
    ( "keywords", keywordsToJ p.keywords),
    ( "screening", screeningToJ p.screening),
    ( "sources", strListToJ p.sources),
    ( "rationales", match p.rationales with
      | none => .null
      | some m => .jobj (m.map (fun q => (q.1, JValue.jstr q.2))))]

/-- `server/main.py` `api_freeze`: merge the refinements' refined criteria
into the protocol's screening section when refinements are supplied, then
canonicalize, hash, and build the manifest (`now` is the timestamp
`utc_now_iso()` would produce). -/
def api_freeze (now : String) (protocol : Protocol) (refinements : Option Refinements) :
    FreezeResponse :=
  let proto := match refinements with
    | none => protocol
    | some r =>
      { protocol with screening :=
        { protocol.screening with
          inclusion_criteria := r.inclusion_criteria_refined,
          exclusion_criteria := r.exclusion_criteria_refined } }
  let payload := canonical_json_string (protocolToJ proto)
  let checksum := sha256_text payload
  ⟨proto, ⟨now, checksum, [ "inline"],
    some "Freeze before data harvesting; include this hash in PRISMA/methods."⟩⟩

/-! ## Concrete oracles and inputs used by witnesses -/

/-- A concrete JSON oracle: parses exactly the text `[\x7b\x7d,1]` into the
array containing an empty mapping and the number 1. -/
def demoParse (s : List Char) : Option JValue :=
  if s = ( "[\x7b\x7d,1]".data) then some (.jarr [.jobj [], .jnum 1]) else none

/-- A JSON oracle that rejects every text. -/
def rejectParse (_s : List Char) : Option JValue := none

/-- A failing adapter outcome stream: every attempt returns the same
failure response. -/
def alwaysFail (msg : List Char) : Nat → AdapterOutcome :=
  fun _ => .returns ⟨none, false, ( "gemini".data), ( "m".data), 0, none, some msg⟩

/-! ## Lemmas about `pyReplace` and `pyStrip` -/

theorem fencePlain_eq : fencePlain = List.replicate 3 backtick := by decide

theorem replicate_backtick_prefix_iff (k : Nat) (s : List Char) :
    List.replicate k backtick <+: s ↔ k ≤ leadTicks s := by
  induction k generalizing s with
  | zero => simp [List.replicate]
  | succ k ih =>
    cases s with
    | nil =>
      simp [List.replicate, leadTicks]
    | cons c cs =>
      rw [List.replicate_succ]
      rw [ List.cons_prefix_cons]
      by_cases hc : c = backtick
      · subst hc
        simp only [leadTicks, if_true, eq_self_iff_true, true_and]
        rw [ih]
        omega
      · simp only [leadTicks, if_neg hc]
        constructor
        · rintro ⟨h1, -⟩
          exact absurd h1.symm hc
        · omega

theorem fencePlain_prefix_iff (s : List Char) :
    fencePlain <+: s ↔ 3 ≤ leadTicks s := by
  rw [fencePlain_eq]
  exact replicate_backtick_prefix_iff 3 s

theorem leadTicks_pyReplace_fence (s : List Char) (hle : leadTicks s ≤ 2) :
    leadTicks (pyReplace fencePlain [] s) = leadTicks s := by
  generalize hn : s.length = n
  induction n using Nat.strong_induction_on generalizing s with
  | _ n ih =>
    rw [pyReplace]
    split
    · rename_i h
      have := (fencePlain_prefix_iff s).mp (List.isPrefixOf_iff_prefix.mp h.1)
      omega
    · cases s with
      | nil => rfl
      | cons c cs =>
        by_cases hc : c = backtick
        · subst hc
          simp only [leadTicks, if_true, eq_self_iff_true] at hle ⊢
          have hcs : leadTicks cs ≤ 2 := by omega
          rw [ih cs.length (by simp [← hn]) cs hcs rfl]
        · simp only [leadTicks, if_neg hc]

theorem pyReplace_fence_no_fence (s : List Char) :
    ¬ fencePlain <:+: pyReplace fencePlain [] s := by
  generalize hn : s.length = n
  induction n using Nat.strong_induction_on generalizing s with
  | _ n ih =>
    rw [pyReplace]
    split
    · rename_i h
      have h1 : fencePlain <+: s := List.isPrefixOf_iff_prefix.mp h.1
      have h2 : 0 < fencePlain.length := List.length_pos.mpr h.2
      have h3 : fencePlain.length ≤ s.length := h1.length_le
      rw [List.nil_append]
      exact ih (s.drop fencePlain.length).length
        (by simp only [List.length_drop]; omega) _ rfl
    · rename_i hneg
      cases s with
      | nil =>
        intro hinf
        have : fencePlain = [] := List.eq_nil_of_infix_nil hinf
        simp [fencePlain] at this
      | cons c cs =>
        intro hinf
        rcases List.infix_cons_iff.mp hinf with hpre | hinfix
        · -- the fence would be a prefix of `c :: pyReplace fencePlain [] cs`
          have hlead : 3 ≤ leadTicks (c :: pyReplace fencePlain [] cs) :=
            (fencePlain_prefix_iff _).mp hpre
          have hc : c = backtick := by
            by_contra hc
            simp [leadTicks, hc] at hlead
          subst hc
          simp only [leadTicks, if_true, eq_self_iff_true] at hlead
          -- the original string was not fence-prefixed, so it has ≤ 2 leading ticks
          have hs2 : leadTicks (backtick :: cs) ≤ 2 := by
            by_contra hgt
            push_neg at hgt
            exact hneg ⟨ List.isPrefixOf_iff_prefix.mpr
              ((fencePlain_prefix_iff _).mpr (by omega)), by simp [fencePlain]⟩
          simp only [leadTicks, if_true, eq_self_iff_true] at hs2
          have hcs2 : leadTicks cs ≤ 2 := by omega
          rw [leadTicks_pyReplace_fence cs hcs2] at hlead
          omega
        · exact ih cs.length (by simp [← hn]) cs rfl hinfix

theorem pyReplace_of_no_occurrence (old new s : List Char) (hne : old ≠ [])
    (hni : ¬ old <:+: s) : pyReplace old new s = s := by
  induction s with
  | nil => rw [pyReplace]; simp [hne]
  | cons c cs ih =>
    rw [pyReplace]
    split
    · rename_i h
      exact absurd ( List.IsPrefix.isInfix ( List.isPrefixOf_iff_prefix.mp h.1)) hni
    · have : ¬ old <:+: cs := fun h => hni ( List.infix_cons_iff.mpr (Or.inr h))
      show c :: pyReplace old new cs = c :: cs
      rw [ih this]

theorem dropWhile_idem (p : Char → Bool) (l : List Char) :
    List.dropWhile p (List.dropWhile p l) = List.dropWhile p l := by
  induction l with
  | nil => rfl
  | cons c cs ih =>
    by_cases hc : p c
    · simp [List.dropWhile_cons, hc, ih]
    · simp [List.dropWhile_cons, hc]

theorem dropWhile_eq_self_of_lead (p : Char → Bool) (y a : List Char)
    (hp : y <+: a) (ha : List.dropWhile p a = a) :
    List.dropWhile p y = y := by
  cases y with
  | nil => rfl
  | cons c ys =>
    obtain ⟨t, ht⟩ := hp
    have hc : p c = false := by
      by_contra hpc
      have hpc' : p c = true := by simpa using hpc
      rw [← ht] at ha
      rw [List.cons_append, List.dropWhile_cons, if_pos hpc'] at ha
      have hlen := congrArg List.length ha
      have hle : (List.dropWhile p (ys ++ t)).length ≤ (ys ++ t).length :=
        (List.dropWhile_suffix p).length_le
      rw [List.length_cons] at hlen
      omega
    simp [List.dropWhile_cons, hc]

theorem pyStrip_idem (s : List Char) : pyStrip (pyStrip s) = pyStrip s := by
  unfold pyStrip
  set a := s.dropWhile isPySpace with ha
  set b := a.reverse.dropWhile isPySpace with hb
  have hpa : List.dropWhile isPySpace a = a := by
    rw [ha]; exact dropWhile_idem _ _
  have hpref : b.reverse <+: a := by
    have hsuf : b <:+ a.reverse := by rw [hb]; exact List.dropWhile_suffix _
    rw [← List.reverse_suffix, List.reverse_reverse]
    exact hsuf
  have hbrev : List.dropWhile isPySpace b.reverse = b.reverse :=
    dropWhile_eq_self_of_lead _ _ _ hpref hpa
  rw [hbrev, List.reverse_reverse]
  have hpb : List.dropWhile isPySpace b = b := by
    rw [hb]; exact dropWhile_idem _ _
  rw [hpb]

theorem pyStrip_within (s : List Char) : pyStrip s <:+: s := by
  unfold pyStrip
  have h1 : (s.dropWhile isPySpace) <:+ s := List.dropWhile_suffix _
  have h2 : ((s.dropWhile isPySpace).reverse.dropWhile isPySpace) <:+
      (s.dropWhile isPySpace).reverse := List.dropWhile_suffix _
  have h3 : ((s.dropWhile isPySpace).reverse.dropWhile isPySpace).reverse <+:
      (s.dropWhile isPySpace) := by
    rw [← List.reverse_suffix]
    simpa using h2
  exact List.IsInfix.trans ( List.IsPrefix.isInfix h3) ( List.IsSuffix.isInfix h1)

/-- C4: `strip_formatting` (`strip_code_fences`) is idempotent: applying it
twice yields the same text as applying it once, for every input text. -/
theorem strip_formatting_idempotent (x : List Char) :
    strip_code_fences (strip_code_fences x) = strip_code_fences x := by
  unfold strip_code_fences
  set w := pyReplace fencePlain [] (pyReplace fenceJsonl [] (pyReplace fenceJson [] x)) with hw
  have hx : ¬ fencePlain <:+: w := by rw [hw]; exact pyReplace_fence_no_fence _
  have hy : ¬ fencePlain <:+: pyStrip w := fun h => hx (h.trans (pyStrip_within w))
  have hyJson : ¬ fenceJson <:+: pyStrip w := by
    intro h
    have hpj : fencePlain <+: fenceJson := by decide
    exact hy ( List.IsInfix.trans ( List.IsPrefix.isInfix hpj) h)
  have hyJsonl : ¬ fenceJsonl <:+: pyStrip w := by
    intro h
    have hpj : fencePlain <+: fenceJsonl := by decide
    exact hy ( List.IsInfix.trans ( List.IsPrefix.isInfix hpj) h)
  rw [pyReplace_of_no_occurrence _ _ _ (by decide) hyJson,
    pyReplace_of_no_occurrence _ _ _ (by decide) hyJsonl,
    pyReplace_of_no_occurrence _ _ _ (by decide) hy,
    pyStrip_idem]

/-- C5: evaluating `strip_code_fences` on a text whose only content is the
jsonl-tagged fence marker.  The `"```json"` replacement fires first inside
the `"```jsonl"` marker, so the residual character `l` remains: the code
does not remove the jsonl marker as a whole, contradicting the claim (and
the spec), which demand the empty string. -/
theorem strip_code_fences_jsonl_residual :
    strip_code_fences ( "```jsonl".data) = ( "l".data) := by
  simp [strip_code_fences, fencePlain, fenceJson, fenceJsonl, pyReplace, pyStrip, isPySpace]

/-! ## Lemmas about `deep_sort` and key-order invariance -/

theorem keyLeb_total (xs ys : List Char) : keyLeb xs ys = true ∨ keyLeb ys xs = true := by
  induction xs generalizing ys with
  | nil => left; rw [keyLeb]
  | cons x xs ih =>
    cases ys with
    | nil => right; rw [keyLeb]
    | cons y ys =>
      by_cases hxy : x = y
      · subst hxy
        rw [keyLeb, if_pos rfl, keyLeb, if_pos rfl]
        exact ih ys
      · rw [keyLeb, if_neg hxy, keyLeb, if_neg (Ne.symm hxy)]
        rcases lt_or_gt_of_ne (show x ≠ y from hxy) with h | h
        · left; exact decide_eq_true h
        · right; exact decide_eq_true h

theorem keyLeb_trans (xs ys zs : List Char) (h1 : keyLeb xs ys = true)
    (h2 : keyLeb ys zs = true) : keyLeb xs zs = true := by
  induction xs generalizing ys zs with
  | nil => rw [keyLeb]
  | cons x xs ih =>
    cases ys with
    | nil => rw [keyLeb] at h1; exact absurd h1 (by simp)
    | cons y ys =>
      cases zs with
      | nil => rw [keyLeb] at h2; exact absurd h2 (by simp)
      | cons z zs =>
        rw [keyLeb] at h1 h2 ⊢
        by_cases hxy : x = y
        · subst hxy
          rw [if_pos rfl] at h1
          by_cases hyz : x = z
          · subst hyz
            rw [if_pos rfl] at h2 ⊢
            exact ih ys zs h1 h2
          · rw [if_neg hyz] at h2 ⊢
            exact h2
        · rw [if_neg hxy] at h1
          have hlt1 : x < y := of_decide_eq_true h1
          by_cases hyz : y = z
          · subst hyz
            rw [if_neg hxy]
            exact decide_eq_true hlt1
          · rw [if_neg hyz] at h2
            have hlt2 : y < z := of_decide_eq_true h2
            have hxz : x < z := lt_trans hlt1 hlt2
            rw [if_neg (ne_of_lt hxz)]
            exact decide_eq_true hxz

theorem keyLeb_antisymm (xs ys : List Char) (h1 : keyLeb xs ys = true)
    (h2 : keyLeb ys xs = true) : xs = ys := by
  induction xs generalizing ys with
  | nil =>
    cases ys with
    | nil => rfl
    | cons y ys => rw [keyLeb] at h2; exact absurd h2 (by simp)
  | cons x xs ih =>
    cases ys with
    | nil => rw [keyLeb] at h1; exact absurd h1 (by simp)
    | cons y ys =>
      rw [keyLeb] at h1 h2
      by_cases hxy : x = y
      · subst hxy
        rw [if_pos rfl] at h1 h2
        rw [ih ys h1 h2]
      · rw [if_neg hxy] at h1
        rw [if_neg (Ne.symm hxy)] at h2
        have hlt1 : x < y := of_decide_eq_true h1
        have hlt2 : y < x := of_decide_eq_true h2
        exact absurd hlt2 (not_lt_of_gt hlt1)

theorem deepSortList_eq_map (l : List JValue) : deepSortList l = l.map deep_sort := by
  induction l with
  | nil => rw [deepSortList]; rfl
  | cons x xs ih => rw [deepSortList, ih]; rfl

theorem deepSortPairs_eq_map (l : List (String × JValue)) :
    deepSortPairs l = l.map (fun p => (p.1, deep_sort p.2)) := by
  induction l with
  | nil => rw [deepSortPairs]; rfl
  | cons p ps ih =>
    obtain ⟨k, v⟩ := p
    rw [deepSortPairs, ih]
    rfl

theorem pairs_sorted_nodup_perm_eq (l₁ l₂ : List (String × JValue))
    (hp : l₁.Perm l₂) (hs₁ : l₁.Sorted pairLe) (hs₂ : l₂.Sorted pairLe)
    (hnd : (l₁.map Prod.fst).Nodup) : l₁ = l₂ := by
  haveI : IsAntisymm (String × JValue) (fun p q => pairLe p q ∧ p.1 ≠ q.1) := by
    constructor
    intro a b hab hba
    exact absurd (String.ext (keyLeb_antisymm _ _ hab.1 hba.1)) hab.2
  have hnd₂ : (l₂.map Prod.fst).Nodup := ((hp.map Prod.fst).nodup_iff).mp hnd
  have hne₁ : l₁.Pairwise (fun p q : String × JValue => p.1 ≠ q.1) :=
    List.pairwise_map.mp hnd
  have hne₂ : l₂.Pairwise (fun p q : String × JValue => p.1 ≠ q.1) :=
    List.pairwise_map.mp hnd₂
  exact List.eq_of_perm_of_sorted hp (hs₁.and hne₁) (hs₂.and hne₂)

theorem deep_sort_of_JEq (a b : JValue) (h : JEq a b) : deep_sort a = deep_sort b := by
  haveI : IsTotal (String × JValue) pairLe :=
    ⟨fun p q => keyLeb_total p.1.data q.1.data⟩
  haveI : IsTrans (String × JValue) pairLe :=
    ⟨fun p q r => keyLeb_trans p.1.data q.1.data r.1.data⟩
  induction h with
  | null => rfl
  | jbool b => rfl
  | jnum n => rfl
  | jstr s => rfl
  | jarr xs ys hlen helem ih =>
    simp only [deep_sort]
    congr 1
    rw [deepSortList_eq_map, deepSortList_eq_map]
    apply List.ext_get
    · simp [hlen]
    · intro i h1 h2
      simp only [List.get_map]
      exact ih i (by simpa using h1) (by simpa using h2)
  | jobj xs zs ys hnd hlen hkey hval hperm ih =>
    simp only [deep_sort]
    congr 1
    rw [deepSortPairs_eq_map, deepSortPairs_eq_map]
    have hxz : xs.map (fun p => (p.1, deep_sort p.2)) = zs.map (fun p => (p.1, deep_sort p.2)) := by
      apply List.ext_get
      · simp [hlen]
      · intro i h1 h2
        simp only [List.get_map]
        have hi1 : i < xs.length := by simpa using h1
        have hi2 : i < zs.length := by simpa using h2
        exact Prod.ext (hkey i hi1 hi2) (ih i hi1 hi2)
    rw [hxz]
    have hpm : (zs.map (fun p => (p.1, deep_sort p.2))).Perm
        (ys.map (fun p => (p.1, deep_sort p.2))) := hperm.map _
    have hkeyzs : zs.map Prod.fst = xs.map Prod.fst := by
      apply List.ext_get
      · simp [hlen]
      · intro i h1 h2
        simp only [List.get_map]
        exact (hkey i (by simpa using h2) (by simpa using h1)).symm
    have hndz : ((zs.map (fun p => (p.1, deep_sort p.2))).map Prod.fst).Nodup := by
      have : (zs.map (fun p => (p.1, deep_sort p.2))).map Prod.fst = zs.map Prod.fst := by
        simp
      rw [this, hkeyzs]
      exact hnd
    apply pairs_sorted_nodup_perm_eq
    · exact (List.perm_insertionSort pairLe _).trans
        (hpm.trans (List.perm_insertionSort pairLe _).symm)
    · exact List.sorted_insertionSort pairLe _
    · exact List.sorted_insertionSort pairLe _
    · have : ((List.insertionSort pairLe (zs.map (fun p => (p.1, deep_sort p.2)))).map
          Prod.fst).Perm ((zs.map (fun p => (p.1, deep_sort p.2))).map Prod.fst) :=
        (List.perm_insertionSort pairLe _).map Prod.fst
      exact this.nodup_iff.mpr hndz

/-- C3: canonicalization is invariant under dict key reordering at every
nesting depth — structurally equal inputs produce identical canonical text
and hence identical hashes — while list element order is significant:
the concrete structures with `items` lists `[1,2,3]` and `[3,2,1]`
canonicalize to different texts. -/
theorem canonicalize_key_order_invariant :
    (∀ a b : JValue, JEq a b →
      canonical_json_string a = canonical_json_string b ∧
      sha256_text (canonical_json_string a) = sha256_text (canonical_json_string b)) ∧
    canonical_json_string (.jobj [( "items", .jarr [.jnum 1, .jnum 2, .jnum 3])]) ≠
      canonical_json_string (.jobj [( "items", .jarr [.jnum 3, .jnum 2, .jnum 1])]) := by
  constructor
  · intro a b h
    have hds : deep_sort a = deep_sort b := deep_sort_of_JEq a b h
    unfold canonical_json_string
    rw [hds]
    exact ⟨rfl, rfl⟩
  · simp [canonical_json_string, deep_sort, deepSortList, deepSortPairs, render, renderFields,
      renderElems, renderString, escapeChar, renderInt, natDigits, digitChar,
      List.insertionSort, List.orderedInsert]

/-- Witness for C3: a two-key dict related by `JEq` to its key-reversed
form, on which the invariance theorem yields equal canonical text. -/
theorem canonicalize_key_order_invariant_witness :
    JEq (.jobj [( "a", .jnum 1), ( "b", .jnum 2)]) (.jobj [( "b", .jnum 2), ( "a", .jnum 1)]) ∧
    canonical_json_string (.jobj [( "a", .jnum 1), ( "b", .jnum 2)]) =
      canonical_json_string (.jobj [( "b", .jnum 2), ( "a", .jnum 1)]) := by
  have hder : JEq (.jobj [( "a", .jnum 1), ( "b", .jnum 2)])
      (.jobj [( "b", .jnum 2), ( "a", .jnum 1)]) := by
    refine JEq.jobj [( "a", .jnum 1), ( "b", .jnum 2)] [( "a", .jnum 1), ( "b", .jnum 2)]
      [( "b", .jnum 2), ( "a", .jnum 1)] (by decide) rfl ?_ ?_ ?_
    · intro i h1 h2
      match i with
      | 0 => rfl
      | 1 => rfl
      | n + 2 => exact absurd h1 (by simp)
    · intro i h1 h2
      match i with
      | 0 => exact JEq.jnum 1
      | 1 => exact JEq.jnum 2
      | n + 2 => exact absurd h1 (by simp)
    · exact List.Perm.swap (( "b", JValue.jnum 2)) (( "a", JValue.jnum 1)) []
  exact ⟨hder, (canonicalize_key_order_invariant.1 _ _ hder).1⟩

/-! ## Digest shape lemmas and the end-to-end scenario -/

theorem hexChar_mod16_mem (m : Nat) : hexChar (m % 16) ∈ hexAlphabet := by
  have h : m % 16 < 16 := Nat.mod_lt _ (by norm_num)
  interval_cases hk : (m % 16) <;> decide

theorem mem_wordHex_hex (c : Char) (w : Nat) (hc : c ∈ wordHex w) : c ∈ hexAlphabet := by
  simp only [wordHex, List.mem_cons, List.not_mem_nil, or_false] at hc
  rcases hc with h | h | h | h | h | h | h | h <;>
    (subst h; exact hexChar_mod16_mem _)

theorem sha256_text_length (s : List Char) : (sha256_text s).length = 64 := by
  simp [sha256_text, wordHex]

theorem sha256_text_mem_hex (s : List Char) (c : Char) (hc : c ∈ sha256_text s) :
    c ∈ hexAlphabet := by
  simp only [sha256_text, List.mem_append] at hc
  rcases hc with ((((((h | h) | h) | h) | h) | h) | h) | h <;>
    exact mem_wordHex_hex c _ h

/-- C9: canonicalizing the end-to-end scenario structure produces exactly
the expected canonical text, and the hash function applied to any text at
any time always yields the same digest of 64 lower-case hexadecimal
characters (the digest depends only on the text, so repeated hashing is
deterministic). -/
theorem freeze_demo_canonical_text_and_hash_shape :
    canonical_json_string demoProtocol =
      ( "\x7b\"keywords\":\x7b\"exclude\":[\"robotics\"],\"include\":[\"AI\",\"ML\"]\x7d,\"screening\":\x7b\"languages\":[\"en\",\"fr\"],\"years\":[2020,2025]\x7d,\"sources\":[\"arxiv\",\"pubmed\"]\x7d".data) ∧
    (∀ s : List Char, (sha256_text s).length = 64 ∧ ∀ c ∈ sha256_text s, c ∈ hexAlphabet) ∧
    (∀ s t : List Char, s = t → sha256_text s = sha256_text t) := by
  refine ⟨?_, fun s => ⟨sha256_text_length s, fun c hc => sha256_text_mem_hex s c hc⟩,
    fun s t hst => by rw [hst]⟩
  simp [demoProtocol, canonical_json_string, deep_sort, deepSortList, deepSortPairs, render,
    renderFields, renderElems, renderString, escapeChar, renderInt, natDigits, digitChar,
    List.insertionSort, List.orderedInsert, pairLe, keyLeb]

/-- Witness for C9: the hash-determinism component applied at the concrete
equal pair of empty texts. -/
theorem freeze_demo_canonical_text_and_hash_shape_witness :
    ([] : List Char) = ([] : List Char) ∧ sha256_text [] = sha256_text [] :=
  ⟨rfl, freeze_demo_canonical_text_and_hash_shape.2.2 [] [] rfl⟩

/-! ## Response normalizer theorems -/

theorem jsonlLines_eq (parse : List Char → Option JValue) (lines : List (List Char)) :
    jsonlLines parse lines =
      ((lines.map pyStrip).filter (fun l => decide (l ≠ []))).filterMap
        (fun l => asJObj (parse l)) := by
  induction lines with
  | nil => rfl
  | cons l ls ih =>
    simp only [List.map_cons, List.filter_cons]
    by_cases hl : pyStrip l = []
    · rw [jsonlLines]
      simp [hl, ih]
    · rw [jsonlLines]
      simp only [hl, decide_not, if_neg]
      cases hp : parse (pyStrip l) with
      | none => simp [asJObj, hp, ih, hl]
      | some v => cases v <;> simp [asJObj, hp, ih, hl]

/-- C6: `normalize_records` (`normalize_jsonl`), over any JSON oracle
`parse` (total, so the embedded function never raises): when the stripped
text parses as a JSON array it returns exactly the array's mapping
elements; when whole-text parsing fails it parses the stripped non-blank
lines independently, keeping the mappings in order; and when nothing
parses it returns the empty sequence. -/
theorem normalize_records_spec :
    (∀ (parse : List Char → Option JValue) (raw : List Char) (xs : List JValue),
      parse (strip_code_fences raw) = some (.jarr xs) →
      normalize_jsonl parse raw = xs.filter isJObjB) ∧
    (∀ (parse : List Char → Option JValue) (raw : List Char),
      parse (strip_code_fences raw) = none →
      normalize_jsonl parse raw =
        (((pySplitlines (strip_code_fences raw) []).map pyStrip).filter
          (fun l => decide (l ≠ []))).filterMap (fun l => asJObj (parse l))) ∧
    (∀ (parse : List Char → Option JValue) (raw : List Char),
      (∀ s, parse s = none) → normalize_jsonl parse raw = []) := by
  refine ⟨?_, ?_, ?_⟩
  · intro parse raw xs hp
    unfold normalize_jsonl
    rw [hp]
  · intro parse raw hp
    unfold normalize_jsonl
    rw [hp]
    exact jsonlLines_eq parse _
  · intro parse raw hall
    unfold normalize_jsonl
    rw [hall]
    rw [jsonlLines_eq]
    simp [asJObj, hall]

/-- Witness for C6: the concrete oracle `demoParse` parses the concrete
input as an array containing one mapping and one number; the theorem
yields exactly the mapping. -/
theorem normalize_records_spec_witness :
    demoParse (strip_code_fences ( "[\x7b\x7d,1]".data)) =
      some (.jarr [.jobj [], .jnum 1]) ∧
    normalize_jsonl demoParse ( "[\x7b\x7d,1]".data) = [.jobj []] := by
  have hp : demoParse (strip_code_fences ( "[\x7b\x7d,1]".data)) =
      some (.jarr [.jobj [], .jnum 1]) := by
    simp [demoParse, strip_code_fences, fencePlain, fenceJson, fenceJsonl, pyReplace,
      pyStrip, isPySpace]
  refine ⟨hp, ?_⟩
  rw [normalize_records_spec.1 demoParse _ _ hp]
  rfl

/-- C7: the query stage's `from_fallback` flag is true exactly when the
LLM call returned no content or the normalized record collection is empty;
in the fallback case the returned queries are empty, and otherwise they
are exactly the normalized records. -/
theorem api_queries_fallback_iff :
    ∀ (parse : List Char → Option JValue) (raw : Option (List Char)),
      (api_queries parse raw).1 = queriesRecords parse raw ∧
      ((api_queries parse raw).2 = true ↔ raw = none ∨ queriesRecords parse raw = []) ∧
      ((api_queries parse raw).2 = true → (api_queries parse raw).1 = []) := by
  intro parse raw
  cases raw with
  | none => simp [api_queries, queriesRecords]
  | some r =>
    refine ⟨rfl, ?_, ?_⟩
    · simp [api_queries, queriesRecords, List.isEmpty_iff]
    · intro h
      simp only [api_queries] at h ⊢
      exact List.isEmpty_iff.mp h

/-- Witness for C7: with no content from the LLM call, the theorem yields
`from_fallback = true` and an empty query list. -/
theorem api_queries_fallback_iff_witness :
    (api_queries rejectParse none).2 = true ∧ (api_queries rejectParse none).1 = [] := by
  have h := api_queries_fallback_iff rejectParse none
  have hflag : (api_queries rejectParse none).2 = true := h.2.1.mpr (Or.inl rfl)
  exact ⟨hflag, h.2.2 hflag⟩


/-! ## Retry-loop lemmas -/

theorem supportedProvider_eq_true (v : LLMProvider) : supportedProvider v = true := by
  cases v <;> rfl

theorem call_llm_async_eq (outcomes : Nat → AdapterOutcome) (model : List Char)
    (cfg : LLMConfig) :
    call_llm_async outcomes model cfg =
      callLoop outcomes cfg (parse_model_string model).1.value
        (parse_model_string model).2 cfg.max_retries 0 none := by
  unfold call_llm_async
  rw [if_pos (supportedProvider_eq_true _)]

theorem delay_cons_range (cfg : LLMConfig) (att i : Nat) :
    backoffDelay cfg att :: (List.range i).map (fun j => backoffDelay cfg (att + 1 + j)) =
      (List.range (i + 1)).map (fun j => backoffDelay cfg (att + j)) := by
  rw [List.range_succ_eq_map, List.map_cons, List.map_map]
  refine congrArg₂ _ (by rw [Nat.add_zero]) ?_
  refine List.map_congr_left ?_
  intro j _
  simp only [Function.comp_apply]
  congr 1
  omega

theorem callLoop_success_at (outcomes : Nat → AdapterOutcome) (cfg : LLMConfig)
    (pv nm : List Char) :
    ∀ (rem att i : Nat) (err : Option (List Char)) (r : LLMResponse),
      i < rem →
      (∀ j, j < i → outcomeSuccessB (outcomes (att + j)) = false) →
      outcomes (att + i) = .returns r → r.success = true →
      callLoop outcomes cfg pv nm rem att err =
        (r, ⟨i + 1, (List.range i).map (fun j => backoffDelay cfg (att + j))⟩) := by
  intro rem
  induction rem with
  | zero =>
    intro att i err r hi
    omega
  | succ rem ih =>
    intro att i err r hi hfail hout hsucc
    cases i with
    | zero =>
      rw [callLoop]
      simp only [Nat.add_zero] at hout
      rw [hout]
      simp [hsucc]
    | succ i' =>
      have h0 : outcomeSuccessB (outcomes att) = false := by
        have := hfail 0 (Nat.succ_pos i')
        simpa using this
      have hrem : 0 < rem := by omega
      have hshift : ∀ (e : Option (List Char)),
          callLoop outcomes cfg pv nm rem (att + 1) e =
            (r, ⟨i' + 1, (List.range i').map (fun j => backoffDelay cfg (att + 1 + j))⟩) := by
        intro e
        refine ih (att + 1) i' e r (by omega) ?_ ?_ hsucc
        · intro j hj
          have := hfail (j + 1) (by omega)
          have harith : att + (j + 1) = att + 1 + j := by omega
          rwa [harith] at this
        · have harith : att + (i' + 1) = att + 1 + i' := by omega
          rwa [harith] at hout
      rw [callLoop]
      cases hatt : outcomes att with
      | raises m =>
        simp only [hshift (some m), wrapStep]
        rw [if_pos hrem]
        rw [List.singleton_append, delay_cons_range cfg att i']
      | returns r0 =>
        have hr0 : r0.success = false := by
          rw [hatt] at h0
          simpa [outcomeSuccessB] using h0
        simp only [hr0, Bool.false_eq_true, if_false, hshift r0.error, wrapStep]
        rw [if_pos hrem]
        rw [List.singleton_append, delay_cons_range cfg att i']

theorem callLoop_allFail (outcomes : Nat → AdapterOutcome) (cfg : LLMConfig)
    (pv nm : List Char) :
    ∀ (rem att : Nat) (err : Option (List Char)),
      (∀ j, j < rem → outcomeSuccessB (outcomes (att + j)) = false) →
      callLoop outcomes cfg pv nm rem att err =
        (⟨none, false, pv, nm, 0, none, lastErrOf outcomes att rem err⟩,
         ⟨rem, (List.range (rem - 1)).map (fun j => backoffDelay cfg (att + j))⟩) := by
  intro rem
  induction rem with
  | zero =>
    intro att err _
    rw [callLoop]
    simp [lastErrOf]
  | succ rem ih =>
    intro att err hfail
    have h0 : outcomeSuccessB (outcomes att) = false := by
      have := hfail 0 (Nat.succ_pos rem)
      simpa using this
    have hrec : ∀ (e : Option (List Char)),
        callLoop outcomes cfg pv nm rem (att + 1) e =
          (⟨none, false, pv, nm, 0, none, lastErrOf outcomes (att + 1) rem e⟩,
           ⟨rem, (List.range (rem - 1)).map (fun j => backoffDelay cfg (att + 1 + j))⟩) := by
      intro e
      refine ih (att + 1) e ?_
      intro j hj
      have := hfail (j + 1) (by omega)
      have harith : att + (j + 1) = att + 1 + j := by omega
      rwa [harith] at this
    have herr : ∀ (e : Option (List Char)), e = outcomeErr (outcomes att) →
        lastErrOf outcomes (att + 1) rem e = lastErrOf outcomes att (rem + 1) err := by
      intro e he
      unfold lastErrOf
      cases rem with
      | zero => simpa using he
      | succ rem' =>
        simp only [Nat.succ_ne_zero, if_false]
        have harith : att + 1 + (rem' + 1) - 1 = att + (rem' + 1 + 1) - 1 := by omega
        rw [harith]
    have hsleeps :
        (if rem > 0 then [backoffDelay cfg att] else []) ++
            (List.range (rem - 1)).map (fun j => backoffDelay cfg (att + 1 + j)) =
          (List.range (rem + 1 - 1)).map (fun j => backoffDelay cfg (att + j)) := by
      cases rem with
      | zero => simp
      | succ rem' =>
        rw [if_pos (Nat.succ_pos rem')]
        rw [List.singleton_append]
        have : rem' + 1 - 1 = rem' := by omega
        rw [this]
        have : rem' + 1 + 1 - 1 = rem' + 1 := by omega
        rw [this]
        exact delay_cons_range cfg att rem'
    rw [callLoop]
    cases hatt : outcomes att with
    | raises m =>
      simp only [hrec (some m), wrapStep]
      rw [herr (some m) (by rw [hatt]; rfl), hsleeps]
    | returns r0 =>
      have hr0 : r0.success = false := by
        rw [hatt] at h0
        simpa [outcomeSuccessB] using h0
      simp only [hr0, Bool.false_eq_true, if_false, hrec r0.error, wrapStep]
      rw [herr r0.error (by rw [hatt]; rfl), hsleeps]

theorem callLoop_inv (outcomes : Nat → AdapterOutcome) (cfg : LLMConfig)
    (pv nm : List Char) :
    ∀ (rem att : Nat) (err : Option (List Char)),
      (∀ i, respInvariant (outcomes i)) →
      (err ≠ none ∨ 1 ≤ rem) →
      ((callLoop outcomes cfg pv nm rem att err).1.success = true →
        (callLoop outcomes cfg pv nm rem att err).1.content ≠ none) ∧
      ((callLoop outcomes cfg pv nm rem att err).1.success = false →
        (callLoop outcomes cfg pv nm rem att err).1.content = none ∧
        (callLoop outcomes cfg pv nm rem att err).1.error ≠ none) := by
  intro rem
  induction rem with
  | zero =>
    intro att err hinv hd
    have herr : err ≠ none := by
      rcases hd with h | h
      · exact h
      · omega
    rw [callLoop]
    exact ⟨fun h => by simp at h, fun _ => ⟨rfl, herr⟩⟩
  | succ rem ih =>
    intro att err hinv _
    rw [callLoop]
    cases hatt : outcomes att with
    | raises m =>
      simp only [wrapStep]
      exact ih (att + 1) (some m) hinv (Or.inl (by simp))
    | returns r0 =>
      by_cases hs : r0.success = true
      · have hi := hinv att
        rw [hatt] at hi
        simp only [hs, eq_self_iff_true, if_true]
        refine ⟨fun _ => hi.1 hs, fun hfalse => ?_⟩
        exact absurd hfalse (by simp)
      · have hs' : r0.success = false := by simpa using hs
        have hi := hinv att
        rw [hatt] at hi
        have herr0 : r0.error ≠ none := (hi.2 hs').2
        simp only [hs', Bool.false_eq_true, if_false, wrapStep]
        exact ih (att + 1) r0.error hinv (Or.inl herr0)

/-- C2: the retry/backoff orchestrator.  For every adapter outcome stream,
model string and config: (1) if attempt `i` is the first success, the call
returns that response immediately after `i+1` invocations, having slept
exactly once between consecutive attempts with delays `backoffDelay`;
(2) if every attempt fails (raises or returns failure), the call makes
exactly `max_retries` invocations, sleeps `max_retries - 1` times, and
returns a failure; (3) the backoff delay after attempt `a` is
`min(base_delay * 2^a, max_delay)`; (4) with at least one attempt, the
final failure carries the most recent error (exception message or returned
error). -/
theorem call_llm_retry_backoff (outcomes : Nat → AdapterOutcome) (model : List Char)
    (cfg : LLMConfig) :
    (∀ (i : Nat) (r : LLMResponse), i < cfg.max_retries →
      (∀ j, j < i → outcomeSuccessB (outcomes j) = false) →
      outcomes i = .returns r → r.success = true →
      call_llm_async outcomes model cfg =
        (r, ⟨i + 1, (List.range i).map (backoffDelay cfg)⟩)) ∧
    ((∀ j, j < cfg.max_retries → outcomeSuccessB (outcomes j) = false) →
      call_llm_async outcomes model cfg =
        (⟨none, false, (parse_model_string model).1.value, (parse_model_string model).2,
          0, none, lastErrOf outcomes 0 cfg.max_retries none⟩,
         ⟨cfg.max_retries, (List.range (cfg.max_retries - 1)).map (backoffDelay cfg)⟩)) ∧
    (∀ a : Nat, backoffDelay cfg a = min (cfg.base_delay * 2 ^ a) cfg.max_delay) ∧
    (1 ≤ cfg.max_retries →
      (∀ j, j < cfg.max_retries → outcomeSuccessB (outcomes j) = false) →
      (call_llm_async outcomes model cfg).1.error =
        outcomeErr (outcomes (cfg.max_retries - 1))) := by
  have hmapz : ∀ n : Nat, (List.range n).map (fun j => backoffDelay cfg (0 + j)) =
      (List.range n).map (backoffDelay cfg) := by
    intro n
    refine List.map_congr_left ?_
    intro j _
    rw [Nat.zero_add]
  refine ⟨?_, ?_, fun a => rfl, ?_⟩
  · intro i r hi hfail hout hsucc
    rw [call_llm_async_eq]
    rw [callLoop_success_at outcomes cfg _ _ cfg.max_retries 0 i none r hi
      (fun j hj => by rw [Nat.zero_add]; exact hfail j hj)
      (by rw [Nat.zero_add]; exact hout) hsucc]
    rw [hmapz]
  · intro hfail
    rw [call_llm_async_eq]
    rw [callLoop_allFail outcomes cfg _ _ cfg.max_retries 0 none
      (fun j hj => by rw [Nat.zero_add]; exact hfail j hj)]
    rw [hmapz]
  · intro h1 hfail
    rw [call_llm_async_eq]
    rw [callLoop_allFail outcomes cfg _ _ cfg.max_retries 0 none
      (fun j hj => by rw [Nat.zero_add]; exact hfail j hj)]
    unfold lastErrOf
    rw [if_neg (by omega)]
    rw [Nat.zero_add]

/-- Witness for C2: an always-failing adapter with `max_retries = 3`,
`base_delay = 1`, `max_delay = 10` is invoked exactly 3 times, sleeps
twice with delays 1 and 2, and returns the last error. -/
theorem call_llm_retry_backoff_witness :
    (∀ j, j < (3 : Nat) → outcomeSuccessB (alwaysFail ( "boom".data) j) = false) ∧
    call_llm_async (alwaysFail ( "boom".data)) ( "gemini:m".data) ⟨3, 60, 1, 10, 0⟩ =
      (⟨none, false, ( "gemini".data), ( "m".data), 0, none, some ( "boom".data)⟩,
       ⟨3, [1, 2]⟩) := by
  have hfail : ∀ j, j < (3 : Nat) → outcomeSuccessB (alwaysFail ( "boom".data) j) = false :=
    fun j _ => rfl
  refine ⟨hfail, ?_⟩
  rw [(call_llm_retry_backoff (alwaysFail ( "boom".data)) ( "gemini:m".data)
    ⟨3, 60, 1, 10, 0⟩).2.1 hfail]
  refine congrArg₂ _ ?_ ?_
  · refine congrArg₂ _ ?_ rfl
    simp [parse_model_string, splitOnColon, providerFromValue, LLMProvider.value,
      lastErrOf, alwaysFail, outcomeErr]
  · show (⟨3, (List.range 2).map (backoffDelay ⟨3, 60, 1, 10, 0⟩)⟩ : CallTrace) = ⟨3, [1, 2]⟩
    have : (List.range 2).map (backoffDelay ⟨3, 60, 1, 10, 0⟩) = [1, 2] := by
      simp [List.range_succ, backoffDelay]
      norm_num
    rw [this]

/-- C1 counterexample: the claimed CallResult invariant fails on the code
at two concrete reachable points.  (1) `_call_openai` passes the backend
message content through unchecked, so a completion without content yields
`success = true` with `content = None`.  (2) `call_llm_async` with
`max_retries = 0` returns `success = false` with no error set (the loop
body never runs, so `last_error` is still `None`). -/
theorem call_result_invariant_counterexample :
    ((_call_openai ⟨some ( "k".data), .ok (none, none)⟩ ( "m".data)).success = true ∧
     (_call_openai ⟨some ( "k".data), .ok (none, none)⟩ ( "m".data)).content = none) ∧
    ((call_llm_async (alwaysFail ( "e".data)) ( "x".data) ⟨0, 60, 1, 10, 0⟩).1.success = false ∧
     (call_llm_async (alwaysFail ( "e".data)) ( "x".data) ⟨0, 60, 1, 10, 0⟩).1.content = none ∧
     (call_llm_async (alwaysFail ( "e".data)) ( "x".data) ⟨0, 60, 1, 10, 0⟩).1.error = none) := by
  refine ⟨⟨rfl, rfl⟩, ?_, ?_, ?_⟩ <;> rfl

/-- C1 (amended): (1) every `_call_gemini` result satisfies the full
invariant — success carries non-empty content, failure carries no content
and an error, and content is present only on success; (2) every
`_call_openai` result satisfies: content present only on success, and
failure carries no content and an error (success passes the backend's
optional content through, so success does not guarantee presence);
(3) the orchestrator preserves the invariant: when every adapter outcome
satisfies it and at least one attempt is configured, every orchestrator
return satisfies it. -/
theorem call_result_invariant_amended :
    (∀ (env : GeminiEnv) (m : List Char),
      ((_call_gemini env m).success = true →
        ∃ s, (_call_gemini env m).content = some s ∧ s ≠ []) ∧
      ((_call_gemini env m).success = false →
        (_call_gemini env m).content = none ∧ (_call_gemini env m).error ≠ none) ∧
      ((_call_gemini env m).content ≠ none → (_call_gemini env m).success = true)) ∧
    (∀ (env : OpenAIEnv) (m : List Char),
      ((_call_openai env m).content ≠ none → (_call_openai env m).success = true) ∧
      ((_call_openai env m).success = false →
        (_call_openai env m).content = none ∧ (_call_openai env m).error ≠ none)) ∧
    (∀ (outcomes : Nat → AdapterOutcome) (model : List Char) (cfg : LLMConfig),
      1 ≤ cfg.max_retries → (∀ i, respInvariant (outcomes i)) →
      ((call_llm_async outcomes model cfg).1.success = true →
        (call_llm_async outcomes model cfg).1.content ≠ none) ∧
      ((call_llm_async outcomes model cfg).1.success = false →
        (call_llm_async outcomes model cfg).1.content = none ∧
        (call_llm_async outcomes model cfg).1.error ≠ none)) := by
  refine ⟨?_, ?_, ?_⟩
  · intro env m
    obtain ⟨key, outc⟩ := env
    cases key with
    | none => simp [_call_gemini]
    | some k =>
      cases outc with
      | error e => simp [_call_gemini]
      | ok p =>
        obtain ⟨content, tokens⟩ := p
        cases content with
        | none => simp [_call_gemini]
        | some s =>
          by_cases hs : s = []
          · simp [_call_gemini, hs]
          · refine ⟨fun _ => ⟨s, ?_, hs⟩, fun hf => ?_, fun _ => ?_⟩
            · simp [_call_gemini, hs]
            · simp [_call_gemini, hs] at hf
            · simp [_call_gemini, hs]
  · intro env m
    obtain ⟨key, outc⟩ := env
    cases key with
    | none => simp [_call_openai]
    | some k =>
      cases outc with
      | error e => simp [_call_openai]
      | ok p =>
        obtain ⟨content, tokens⟩ := p
        refine ⟨fun _ => ?_, fun hf => ?_⟩
        · simp [_call_openai]
        · simp [_call_openai] at hf
  · intro outcomes model cfg h1 hinv
    rw [call_llm_async_eq]
    exact callLoop_inv outcomes cfg _ _ cfg.max_retries 0 none hinv (Or.inr h1)

/-- Witness for C1 (amended): an always-failing outcome stream satisfies
the per-outcome invariant, and with `max_retries = 3` the orchestrator's
failure return has no content and an error set. -/
theorem call_result_invariant_amended_witness :
    (1 : Nat) ≤ 3 ∧ (∀ i, respInvariant (alwaysFail ( "boom".data) i)) ∧
    ((call_llm_async (alwaysFail ( "boom".data)) ( "x".data) ⟨3, 60, 1, 10, 0⟩).1.success = false →
      (call_llm_async (alwaysFail ( "boom".data)) ( "x".data) ⟨3, 60, 1, 10, 0⟩).1.content = none ∧
      (call_llm_async (alwaysFail ( "boom".data)) ( "x".data) ⟨3, 60, 1, 10, 0⟩).1.error ≠ none) := by
  have hinv : ∀ i, respInvariant (alwaysFail ( "boom".data) i) := by
    intro i
    simp [respInvariant, alwaysFail]
  exact ⟨by norm_num, hinv,
    (call_result_invariant_amended.2.2 (alwaysFail ( "boom".data)) ( "x".data)
      ⟨3, 60, 1, 10, 0⟩ (by norm_num) hinv).2⟩

/-! ## Model-string parser theorems -/

theorem splitOnColon_not_mem (s : List Char) (h : Char.ofNat 58 ∉ s) :
    splitOnColon s = none := by
  induction s with
  | nil => rfl
  | cons c cs ih =>
    rw [splitOnColon]
    have hc : ¬ c = Char.ofNat 58 := fun hh => h (hh ▸ List.mem_cons_self c cs)
    rw [if_neg hc, ih (fun hm => h (List.mem_cons_of_mem c hm))]

theorem splitOnColon_append (pre rest : List Char) (h : Char.ofNat 58 ∉ pre) :
    splitOnColon (pre ++ Char.ofNat 58 :: rest) = some (pre, rest) := by
  induction pre with
  | nil => rw [List.nil_append, splitOnColon, if_pos rfl]
  | cons c cs ih =>
    rw [List.cons_append, splitOnColon]
    have hc : ¬ c = Char.ofNat 58 := fun hh => h (hh ▸ List.mem_cons_self c cs)
    rw [if_neg hc, ih (fun hm => h (List.mem_cons_of_mem c hm))]

/-- C10: `parse_model_string` is total and always yields a known provider:
with a colon and a (case-insensitively) known prefix it yields that
provider and the remainder as model name; with a colon and an unknown
prefix, or no colon, it defaults to OpenAI with the whole string as model
name; every provider value passes the dispatch test, so `call_llm_async`
always takes the retry-loop path and the "Unsupported provider" branch is
unreachable. -/
theorem parse_model_unsupported_unreachable :
    (∀ (pre rest : List Char), Char.ofNat 58 ∉ pre →
      parse_model_string (pre ++ Char.ofNat 58 :: rest) =
        (match providerFromValue (pre.map Char.toLower) with
         | some p => (p, rest)
         | none => (.openai, pre ++ Char.ofNat 58 :: rest))) ∧
    (∀ s : List Char, Char.ofNat 58 ∉ s → parse_model_string s = (.openai, s)) ∧
    (∀ v : LLMProvider, supportedProvider v = true) ∧
    (∀ (outcomes : Nat → AdapterOutcome) (model : List Char) (cfg : LLMConfig),
      call_llm_async outcomes model cfg =
        callLoop outcomes cfg (parse_model_string model).1.value
          (parse_model_string model).2 cfg.max_retries 0 none) := by
  refine ⟨?_, ?_, supportedProvider_eq_true, call_llm_async_eq⟩
  · intro pre rest h
    unfold parse_model_string
    rw [splitOnColon_append pre rest h]
  · intro s h
    unfold parse_model_string
    rw [splitOnColon_not_mem s h]

/-- Witness for C10: `"gemini:gemini-1.5-flash"` resolves to the gemini
provider with model name `"gemini-1.5-flash"`. -/
theorem parse_model_unsupported_unreachable_witness :
    Char.ofNat 58 ∉ ( "gemini".data) ∧
    parse_model_string ( "gemini:gemini-1.5-flash".data) =
      (.gemini, ( "gemini-1.5-flash".data)) := by
  have hmem : Char.ofNat 58 ∉ ( "gemini".data) := by decide
  refine ⟨hmem, ?_⟩
  have happ : ( "gemini:gemini-1.5-flash".data) =
      ( "gemini".data) ++ Char.ofNat 58 :: ( "gemini-1.5-flash".data) := by decide
  rw [happ, parse_model_unsupported_unreachable.1 ( "gemini".data) _ hmem]
  rfl

/-- C8: freezing merges refinements into the screening section only — with
refinements supplied, the output protocol's screening criteria are the
refined ones (always present on the `Refinements` model, so the
fall-back-to-original branch of `.get` never fires) and every other field
is unchanged; without refinements the protocol passes through unchanged;
and the manifest hash is the SHA-256 digest of the canonical serialization
of the merged protocol. -/
theorem api_freeze_merge_frame :
    (∀ (now : String) (p : Protocol) (r : Refinements),
      (api_freeze now p (some r)).protocol.screening.inclusion_criteria =
        r.inclusion_criteria_refined ∧
      (api_freeze now p (some r)).protocol.screening.exclusion_criteria =
        r.exclusion_criteria_refined ∧
      (api_freeze now p (some r)).protocol.screening.years = p.screening.years ∧
      (api_freeze now p (some r)).protocol.screening.languages = p.screening.languages ∧
      (api_freeze now p (some r)).protocol.screening.doc_types = p.screening.doc_types ∧
      (api_freeze now p (some r)).protocol.research_questions = p.research_questions ∧
      (api_freeze now p (some r)).protocol.picos = p.picos ∧
      (api_freeze now p (some r)).protocol.keywords = p.keywords ∧
      (api_freeze now p (some r)).protocol.sources = p.sources ∧
      (api_freeze now p (some r)).protocol.rationales = p.rationales) ∧
    (∀ (now : String) (p : Protocol), (api_freeze now p none).protocol = p) ∧
    (∀ (now : String) (p : Protocol) (oref : Option Refinements),
      (api_freeze now p oref).manifest.protocol_sha256 =
        sha256_text (canonical_json_string (protocolToJ (api_freeze now p oref).protocol))) := by
  refine ⟨?_, ?_, ?_⟩
  · intro now p r
    exact ⟨rfl, rfl, rfl, rfl, rfl, rfl, rfl, rfl, rfl, rfl⟩
  · intro now p
    rfl
  · intro now p oref
    cases oref <;> rfl
